import Mathlib

/-!
A formal model of the `pretty-trait` pretty-printing library (`src/lib.rs`).

The library is a two-phase layout engine: every renderable node reports an
intrinsic `Size` (the width it would occupy on a single line, or a marker for
inherently multi-line content), and rendering threads a `Context` (maximum
line width, tab size, current indent level, current break mode) down the node
tree while writing characters to an output handle.

The Rust crate exposes the node kinds through the `Pretty` trait; here the
closed set of built-in node kinds is embedded as the inductive type `Doc`,
with `Doc.size` modelling the `size` methods and `prettyWrite` modelling the
`pretty_write` methods.  Output handles (`io::Write` in Rust) are modelled by
`WriterModel`: a state type together with a write operation that either
returns an updated state or the state reached so far paired with an error
value, matching the fact that a failing Rust writer keeps whatever was
already written.  The always-succeeding writer `charWriter` accumulates the
emitted characters and models rendering to an in-memory buffer
(`to_string` in the crate).
-/

namespace PrettyTrait

/-- The `Size` enum (src/lib.rs lines 81-85): a finite column count or the
inherently multi-line marker. -/
inductive Size where
  | size : Nat → Size
  | multiLine : Size

deriving instance DecidableEq for Size

/-- `impl Add<Size> for Size` (src/lib.rs lines 97-106): finite sizes add
their counts, any `MultiLine` operand makes the sum `MultiLine`. -/
def Size.add : Size → Size → Size
  | .size a, .size b => .size (a + b)
  | _, _ => .multiLine

instance : Add Size := ⟨Size.add⟩

/-- `impl Mul<usize> for Size` (src/lib.rs lines 108-117). -/
def Size.mul : Size → Nat → Size
  | .size a, k => .size (a * k)
  | .multiLine, _ => .multiLine

instance : HMul Size Nat Size := ⟨Size.mul⟩

/-- The strict order on `Size` produced by Rust's `derive(PartialOrd, Ord)`
on the enum (src/lib.rs line 81): two `Size` variants compare by their
payloads, and the `Size` variant is less than the `MultiLine` variant. -/
def Size.blt : Size → Size → Bool
  | .size a, .size b => decide (a < b)
  | .size _, .multiLine => true
  | .multiLine, _ => false

/-- `Size::exceeds` (src/lib.rs lines 88-94): `self > max_line`, where an
absent maximum width is compared as `MultiLine`. -/
def Size.exceeds (s : Size) (maxLine : Option Nat) : Bool :=
  Size.blt (match maxLine with | some m => .size m | none => .multiLine) s

/-- The three variants of the `Conditional` enum (src/lib.rs lines 700-710). -/
inductive Conditional where
  | always : Conditional
  | onlyBroken : Conditional
  | onlyUnbroken : Conditional

deriving instance DecidableEq for Conditional

/-- The closed set of built-in `Pretty` node kinds of the crate, as one
inductive type:
* `text` — `&str` / `String` leaves (src/lib.rs lines 218-236);
* `group` — `Group` with its cached size field (lines 285-310);
* `sep` — `Sep` (lines 361-382);
* `newline` — `Newline` (lines 401-416);
* `indent` — `Indent` (lines 469-481);
* `join` — `Join` (lines 489-502);
* `seq` — `Seq` over a list of children (lines 591-608);
* `cond` — `Conditional` (lines 700-725);
* `opt` — the `Pretty` impl for `Option<T>` (lines 770-784). -/
inductive Doc where
  | text : String → Doc
  | group : Size → Doc → Doc
  | sep : Nat → Doc
  | newline : Doc
  | indent : Doc → Doc
  | join : Doc → Doc → Doc
  | seq : List Doc → Doc
  | cond : Conditional → Doc → Doc
  | opt : Option Doc → Doc

mutual

/-- The `size` methods of all built-in node kinds:
`&str`/`String` report their character count (lines 219-221, 229-231);
`Group` returns its cached size (lines 301-303); `Sep(n)` is `Size(n)`
(lines 365-367); `Newline` is `MultiLine` (lines 405-407); `Indent` and
`Option::Some` delegate (lines 473-475, 771-776); `Join` adds (lines
493-495); `Seq` folds addition from `Size(0)` over its children in order
(lines 595-600); `Conditional` and `Option::None` report `Size(0)`
(lines 713-715, 774). -/
def Doc.size : Doc → Size
  | .text s => .size s.length
  | .group sz _ => sz
  | .sep n => .size n
  | .newline => .multiLine
  | .indent d => Doc.size d
  | .join a b => Doc.size a + Doc.size b
  | .seq ds => Doc.sizeFold (.size 0) ds
  | .cond _ _ => .size 0
  | .opt (some d) => Doc.size d
  | .opt none => .size 0

/-- The fold `self.0.iter().fold(Size::Size(0), |total, item| total + item.size())`
of `Seq::size` (src/lib.rs lines 595-600). -/
def Doc.sizeFold : Size → List Doc → Size
  | acc, [] => acc
  | acc, d :: ds => Doc.sizeFold (acc + Doc.size d) ds

end

/-- `Group::new` (src/lib.rs lines 291-298): caches the content's size at
construction time. -/
def Group.new (content : Doc) : Doc := .group content.size content

/-- The rendering environment `Context` (src/lib.rs lines 128-144), minus the
writer handle, which is threaded separately as explicit state. -/
structure Context where
  maxLine : Option Nat
  tabSize : Nat
  indentLevel : Nat
  broken : Bool

deriving instance DecidableEq for Context

/-- A model of an `io::Write` destination: a state type `ω` and a write
operation returning the new state and, on failure, an error value `ε`.
A failing write still returns the state reached so far, matching a Rust
writer that keeps whatever was written before the failure. -/
structure WriterModel (ω ε : Type) where
  writeStr : ω → String → ω × Option ε

/-- A loop of `n` single writes of the string `s`, stopping at the first
failure — the shape of `for _ in 0..n { write!(writer, " ")?; }` in
`Sep::pretty_write` and `Newline::pretty_write`. -/
def writeN (W : WriterModel ω ε) (s : String) : Nat → ω → ω × Option ε
  | 0, w => (w, none)
  | Nat.succ n, w =>
    match W.writeStr w s with
    | (w', none) => writeN W s n w'
    | (w', some e) => (w', some e)

mutual

/-- The `pretty_write` methods of all built-in node kinds (src/lib.rs):
text leaves write their characters (lines 223-225, 233-235); `Group`
recomputes the break mode from its cached size plus
`indent_level * tab_size` against `max_line` and renders its content under
that mode (lines 305-309); `Sep` writes a newline plus
`tab_size * indent_level` spaces when broken, else its width in spaces
(lines 369-381); `Newline` always writes a newline plus indentation (lines
409-415); `Indent` increments the indent level for its content (lines
477-480); `Join` renders its two children in order with `?`-propagation
(lines 497-501); `Seq` renders its children in order (lines 602-607);
`Conditional` renders its content when the variant matches the break mode
(lines 717-724); `Option` renders its content when present (lines 778-783). -/
def prettyWrite (W : WriterModel ω ε) : Doc → Context → ω → ω × Option ε
  | .text s, _, w => W.writeStr w s
  | .group sz d, ctx, w =>
      prettyWrite W d
        { ctx with broken := (sz + Size.size (ctx.indentLevel * ctx.tabSize)).exceeds ctx.maxLine }
        w
  | .sep n, ctx, w =>
      if ctx.broken then
        match W.writeStr w "\n" with
        | (w', none) => writeN W " " (ctx.tabSize * ctx.indentLevel) w'
        | (w', some e) => (w', some e)
      else
        writeN W " " n w
  | .newline, ctx, w =>
      match W.writeStr w "\n" with
      | (w', none) => writeN W " " (ctx.tabSize * ctx.indentLevel) w'
      | (w', some e) => (w', some e)
  | .indent d, ctx, w => prettyWrite W d { ctx with indentLevel := ctx.indentLevel + 1 } w
  | .join a b, ctx, w =>
      match prettyWrite W a ctx w with
      | (w', none) => prettyWrite W b ctx w'
      | (w', some e) => (w', some e)
  | .seq ds, ctx, w => prettyWriteList W ds ctx w
  | .cond k d, ctx, w =>
      match k, ctx.broken with
      | .always, _ => prettyWrite W d ctx w
      | .onlyBroken, true => prettyWrite W d ctx w
      | .onlyUnbroken, false => prettyWrite W d ctx w
      | _, _ => (w, none)
  | .opt (some d), ctx, w => prettyWrite W d ctx w
  | .opt none, _, w => (w, none)

/-- The child loop of `Seq::pretty_write` (src/lib.rs lines 602-607). -/
def prettyWriteList (W : WriterModel ω ε) : List Doc → Context → ω → ω × Option ε
  | [], _, w => (w, none)
  | d :: ds, ctx, w =>
      match prettyWrite W d ctx w with
      | (w', none) => prettyWriteList W ds ctx w'
      | (w', some e) => (w', some e)

end

/-- The always-succeeding in-memory writer: state is the list of characters
written so far.  Models the `Vec<u8>` buffer used by `to_string`
(src/lib.rs lines 644-648). -/
def charWriter : WriterModel (List Char) Empty :=
  ⟨fun w s => (w ++ s.data, none)⟩

/-- The top-level entry `write` (src/lib.rs lines 613-628): measures the
content once, derives the root break mode, and renders at indent level 0. -/
def write (W : WriterModel ω ε) (w : ω) (content : Doc) (maxLine : Option Nat)
    (tabSize : Nat) : ω × Option ε :=
  let sz := content.size
  prettyWrite W content
    { maxLine := maxLine, tabSize := tabSize, indentLevel := 0, broken := sz.exceeds maxLine } w

/-- `to_string` (src/lib.rs lines 644-648): render into an in-memory buffer
and decode it.  With `charWriter` no write can fail, so the `expect` in the
Rust source is unreachable. -/
def to_string (content : Doc) (maxLine : Option Nat) (tabSize : Nat) : String :=
  String.mk (write charWriter [] content maxLine tabSize).1

/-- The characters emitted by rendering `d` in context `ctx` into an empty
in-memory buffer. -/
def output (d : Doc) (ctx : Context) : List Char :=
  (prettyWrite charWriter d ctx []).1

/-- The characters emitted by rendering a list of children in order. -/
def outputList (ds : List Doc) (ctx : Context) : List Char :=
  (prettyWriteList charWriter ds ctx []).1

/-- The item loop of `delimited` (src/lib.rs lines 808-817): each item is
joined with `Some(delim)` when a further item follows (`iter.peek()` is
`Some`), and with `None` otherwise. -/
def delimitedList (delim : Doc) : List Doc → List Doc
  | [] => []
  | d :: ds => .join d (.opt (if ds.isEmpty then none else some delim)) :: delimitedList delim ds

/-- `delimited` (src/lib.rs lines 802-819). -/
def delimited (delim : Doc) (items : List Doc) : Doc :=
  .seq (delimitedList delim items)

/-- `block` (src/lib.rs lines 863-865):
`Indent(Sep(0).join(content)).join(Sep(0))`. -/
def block (content : Doc) : Doc :=
  .join (.indent (.join (.sep 0) content)) (.sep 0)

mutual

/-- `true` when the tree contains no `Newline` (the forced-break node, the
only node kind whose intrinsic size is `MultiLine`). -/
def noForcedBreak : Doc → Bool
  | .text _ => true
  | .group _ d => noForcedBreak d
  | .sep _ => true
  | .newline => false
  | .indent d => noForcedBreak d
  | .join a b => noForcedBreak a && noForcedBreak b
  | .seq ds => noForcedBreakList ds
  | .cond _ d => noForcedBreak d
  | .opt (some d) => noForcedBreak d
  | .opt none => true

/-- `noForcedBreak` over a list of children. -/
def noForcedBreakList : List Doc → Bool
  | [] => true
  | d :: ds => noForcedBreak d && noForcedBreakList ds

end

mutual

/-- The tree with every `Sep(n)` replaced by a plain text leaf of `n`
spaces; all other structure, including cached `Group` sizes, unchanged. -/
def sepToText : Doc → Doc
  | .text s => .text s
  | .group sz d => .group sz (sepToText d)
  | .sep n => .text (String.mk (List.replicate n ' '))
  | .newline => .newline
  | .indent d => .indent (sepToText d)
  | .join a b => .join (sepToText a) (sepToText b)
  | .seq ds => .seq (sepToTextList ds)
  | .cond k d => .cond k (sepToText d)
  | .opt (some d) => .opt (some (sepToText d))
  | .opt none => .opt none

/-- `sepToText` over a list of children. -/
def sepToTextList : List Doc → List Doc
  | [] => []
  | d :: ds => sepToText d :: sepToTextList ds

end

mutual

/-- `true` when the tree contains no `Newline` and no `Group`: the only two
node kinds through which the indent level can influence output rendered
in unbroken mode. -/
def indentFree : Doc → Bool
  | .text _ => true
  | .group _ _ => false
  | .sep _ => true
  | .newline => false
  | .indent d => indentFree d
  | .join a b => indentFree a && indentFree b
  | .seq ds => indentFreeList ds
  | .cond _ d => indentFree d
  | .opt (some d) => indentFree d
  | .opt none => true

/-- `indentFree` over a list of children. -/
def indentFreeList : List Doc → Bool
  | [] => true
  | d :: ds => indentFree d && indentFreeList ds

end

/-- A writer whose every write fails, used to exercise the failure paths. -/
def failWriter : WriterModel Unit Unit :=
  ⟨fun _ _ => ((), some ())⟩

/-! ### Helper lemmas about rendering to the in-memory writer -/

mutual

/-- The characters a node emits, computed structurally; proved below to agree
with `prettyWrite charWriter`. -/
def outputP : Doc → Context → List Char
  | .text s, _ => s.data
  | .group sz d, ctx =>
      outputP d
        { ctx with broken := (sz + Size.size (ctx.indentLevel * ctx.tabSize)).exceeds ctx.maxLine }
  | .sep n, ctx =>
      if ctx.broken then '\n' :: List.replicate (ctx.tabSize * ctx.indentLevel) ' '
      else List.replicate n ' '
  | .newline, ctx => '\n' :: List.replicate (ctx.tabSize * ctx.indentLevel) ' '
  | .indent d, ctx => outputP d { ctx with indentLevel := ctx.indentLevel + 1 }
  | .join a b, ctx => outputP a ctx ++ outputP b ctx
  | .seq ds, ctx => outputPList ds ctx
  | .cond k d, ctx =>
      match k, ctx.broken with
      | .always, _ => outputP d ctx
      | .onlyBroken, true => outputP d ctx
      | .onlyUnbroken, false => outputP d ctx
      | _, _ => []
  | .opt (some d), ctx => outputP d ctx
  | .opt none, _ => []

/-- `outputP` over a list of children. -/
def outputPList : List Doc → Context → List Char
  | [], _ => []
  | d :: ds, ctx => outputP d ctx ++ outputPList ds ctx

end

theorem data_newline : ("\n" : String).data = ['\n'] := rfl

theorem data_space : (" " : String).data = [' '] := rfl

theorem charWriter_writeStr (w : List Char) (s : String) :
    charWriter.writeStr w s = (w ++ s.data, none) := rfl

theorem writeN_space : (n : Nat) → (w : List Char) →
    writeN charWriter " " n w = (w ++ List.replicate n ' ', none)
  | 0, w => by simp [writeN]
  | Nat.succ k, w => by
    simp only [writeN, charWriter_writeStr, data_space]
    rw [writeN_space k (w ++ [' '])]
    simp [List.replicate_succ]

mutual

/-- Rendering to the in-memory writer appends exactly `outputP d ctx` to the
buffer and never fails. -/
theorem shiftW : (d : Doc) → (ctx : Context) → (w : List Char) →
    prettyWrite charWriter d ctx w = (w ++ outputP d ctx, none)
  | .text s, ctx, w => by simp [prettyWrite, outputP, charWriter_writeStr]
  | .group sz d, ctx, w => by
      simp only [prettyWrite, outputP]
      exact shiftW d _ w
  | .sep n, ctx, w => by
      cases hb : ctx.broken with
      | true =>
          simp only [prettyWrite, outputP, hb, if_true, charWriter_writeStr, data_newline]
          rw [writeN_space]
          simp
      | false => simp [prettyWrite, outputP, hb, writeN_space]
  | .newline, ctx, w => by
      simp only [prettyWrite, outputP, charWriter_writeStr, data_newline]
      rw [writeN_space]
      simp
  | .indent d, ctx, w => by
      simp only [prettyWrite, outputP]
      exact shiftW d _ w
  | .join a b, ctx, w => by
      simp only [prettyWrite, outputP]
      rw [shiftW a ctx w]
      show prettyWrite charWriter b ctx (w ++ outputP a ctx) = _
      rw [shiftW b ctx (w ++ outputP a ctx)]
      simp
  | .seq ds, ctx, w => by
      simp only [prettyWrite, outputP]
      exact shiftWList ds ctx w
  | .cond k d, ctx, w => by
      cases hb : ctx.broken <;> cases k <;>
        simp only [prettyWrite, outputP, hb] <;>
        first
          | exact shiftW d ctx w
          | simp
  | .opt (some d), ctx, w => by
      simp only [prettyWrite, outputP]
      exact shiftW d ctx w
  | .opt none, ctx, w => by simp [prettyWrite, outputP]

/-- List version of `shiftW` for the children of a `Seq`. -/
theorem shiftWList : (ds : List Doc) → (ctx : Context) → (w : List Char) →
    prettyWriteList charWriter ds ctx w = (w ++ outputPList ds ctx, none)
  | [], ctx, w => by simp [prettyWriteList, outputPList]
  | d :: ds, ctx, w => by
      simp only [prettyWriteList, outputPList]
      rw [shiftW d ctx w]
      show prettyWriteList charWriter ds ctx (w ++ outputP d ctx) = _
      rw [shiftWList ds ctx (w ++ outputP d ctx)]
      simp

end

theorem output_eq (d : Doc) (ctx : Context) : output d ctx = outputP d ctx := by
  simp [output, shiftW]

theorem outputList_eq (ds : List Doc) (ctx : Context) :
    outputList ds ctx = outputPList ds ctx := by
  simp [outputList, shiftWList]

theorem exceeds_none (s : Size) : s.exceeds none = false := by
  cases s <;> rfl

theorem multiLine_add (s : Size) : Size.multiLine + s = Size.multiLine := by
  cases s <;> rfl

theorem add_multiLine (s : Size) : s + Size.multiLine = Size.multiLine := by
  cases s <;> rfl

theorem add_size_zero (s : Size) : s + Size.size 0 = s := by
  cases s <;> rfl

mutual

/-- With no maximum width and an unbroken starting mode, a tree renders
exactly as the tree with every separator replaced by its width in spaces:
no group can flip the mode to broken (`exceeds none` is always `false`),
so every separator takes its unbroken branch. -/
theorem outputP_sepToText : (d : Doc) → (ctx : Context) →
    ctx.maxLine = none → ctx.broken = false →
    outputP (sepToText d) ctx = outputP d ctx
  | .text _, _, _, _ => rfl
  | .group sz d, ctx, hm, hb => by
      simp only [sepToText, outputP]
      exact outputP_sepToText d _ (by simp [hm]) (by simp [hm, exceeds_none])
  | .sep n, ctx, hm, hb => by
      simp [sepToText, outputP, hb, String.data]
  | .newline, ctx, hm, hb => rfl
  | .indent d, ctx, hm, hb => by
      simp only [sepToText, outputP]
      exact outputP_sepToText d _ (by simp [hm]) (by simp [hb])
  | .join a b, ctx, hm, hb => by
      simp only [sepToText, outputP]
      rw [outputP_sepToText a ctx hm hb, outputP_sepToText b ctx hm hb]
  | .seq ds, ctx, hm, hb => by
      simp only [sepToText, outputP]
      exact outputPList_sepToText ds ctx hm hb
  | .cond k d, ctx, hm, hb => by
      cases k <;> simp only [sepToText, outputP, hb] <;>
        first
          | exact outputP_sepToText d ctx hm hb
          | rfl
  | .opt (some d), ctx, hm, hb => by
      simp only [sepToText, outputP]
      exact outputP_sepToText d ctx hm hb
  | .opt none, _, _, _ => rfl

/-- List version of `outputP_sepToText`. -/
theorem outputPList_sepToText : (ds : List Doc) → (ctx : Context) →
    ctx.maxLine = none → ctx.broken = false →
    outputPList (sepToTextList ds) ctx = outputPList ds ctx
  | [], _, _, _ => rfl
  | d :: ds, ctx, hm, hb => by
      simp only [sepToTextList, outputPList]
      rw [outputP_sepToText d ctx hm hb, outputPList_sepToText ds ctx hm hb]

end

mutual

/-- A tree with no `Newline` and no `Group`, rendered in unbroken mode,
emits the same characters in any two contexts that agree on everything
except the indent level: nothing on such a tree's unbroken render paths
reads the indent level. -/
theorem outputP_indentIrrel : (d : Doc) → (c1 c2 : Context) →
    c1.maxLine = c2.maxLine → c1.tabSize = c2.tabSize →
    c1.broken = false → c2.broken = false → indentFree d = true →
    outputP d c1 = outputP d c2
  | .text _, _, _, _, _, _, _, _ => rfl
  | .sep n, c1, c2, _, _, hb1, hb2, _ => by
      simp [outputP, hb1, hb2]
  | .indent d, c1, c2, hm, ht, hb1, hb2, hf => by
      simp only [outputP]
      exact outputP_indentIrrel d _ _ (by simp [hm]) (by simp [ht]) (by simp [hb1])
        (by simp [hb2]) (by simpa [indentFree] using hf)
  | .join a b, c1, c2, hm, ht, hb1, hb2, hf => by
      simp only [outputP]
      have hfa : indentFree a = true := by
        have := hf
        simp [indentFree, Bool.and_eq_true] at this
        exact this.1
      have hfb : indentFree b = true := by
        have := hf
        simp [indentFree, Bool.and_eq_true] at this
        exact this.2
      rw [outputP_indentIrrel a c1 c2 hm ht hb1 hb2 hfa,
        outputP_indentIrrel b c1 c2 hm ht hb1 hb2 hfb]
  | .seq ds, c1, c2, hm, ht, hb1, hb2, hf => by
      simp only [outputP]
      exact outputPList_indentIrrel ds c1 c2 hm ht hb1 hb2 (by simpa [indentFree] using hf)
  | .cond k d, c1, c2, hm, ht, hb1, hb2, hf => by
      cases k <;> simp only [outputP, hb1, hb2] <;>
        first
          | exact outputP_indentIrrel d c1 c2 hm ht hb1 hb2 (by simpa [indentFree] using hf)
          | rfl
  | .opt (some d), c1, c2, hm, ht, hb1, hb2, hf => by
      simp only [outputP]
      exact outputP_indentIrrel d c1 c2 hm ht hb1 hb2 (by simpa [indentFree] using hf)
  | .opt none, _, _, _, _, _, _, _ => rfl

/-- List version of `outputP_indentIrrel`. -/
theorem outputPList_indentIrrel : (ds : List Doc) → (c1 c2 : Context) →
    c1.maxLine = c2.maxLine → c1.tabSize = c2.tabSize →
    c1.broken = false → c2.broken = false → indentFreeList ds = true →
    outputPList ds c1 = outputPList ds c2
  | [], _, _, _, _, _, _, _ => rfl
  | d :: ds, c1, c2, hm, ht, hb1, hb2, hf => by
      simp only [outputPList]
      have hfd : indentFree d = true := by
        have := hf
        simp [indentFreeList, Bool.and_eq_true] at this
        exact this.1
      have hfds : indentFreeList ds = true := by
        have := hf
        simp [indentFreeList, Bool.and_eq_true] at this
        exact this.2
      rw [outputP_indentIrrel d c1 c2 hm ht hb1 hb2 hfd,
        outputPList_indentIrrel ds c1 c2 hm ht hb1 hb2 hfds]

end

/-! ### Unfolding equations and algebra helpers -/

theorem prettyWrite_group (W : WriterModel ω ε) (sz : Size) (d : Doc) (ctx : Context) (w : ω) :
    prettyWrite W (.group sz d) ctx w =
      prettyWrite W d
        { ctx with broken := (sz + Size.size (ctx.indentLevel * ctx.tabSize)).exceeds ctx.maxLine }
        w := rfl

theorem prettyWrite_indent (W : WriterModel ω ε) (d : Doc) (ctx : Context) (w : ω) :
    prettyWrite W (.indent d) ctx w =
      prettyWrite W d { ctx with indentLevel := ctx.indentLevel + 1 } w := rfl

theorem prettyWrite_join (W : WriterModel ω ε) (a b : Doc) (ctx : Context) (w : ω) :
    prettyWrite W (.join a b) ctx w =
      match prettyWrite W a ctx w with
      | (w', none) => prettyWrite W b ctx w'
      | (w', some e) => (w', some e) := rfl

theorem prettyWrite_seq_cons (W : WriterModel ω ε) (d : Doc) (ds : List Doc)
    (ctx : Context) (w : ω) :
    prettyWrite W (.seq (d :: ds)) ctx w =
      match prettyWrite W d ctx w with
      | (w', none) => prettyWrite W (.seq ds) ctx w'
      | (w', some e) => (w', some e) := rfl

theorem size_add_assoc (a b c : Size) : a + b + c = a + (b + c) := by
  show Size.add (Size.add a b) c = Size.add a (Size.add b c)
  cases a <;> cases b <;> cases c <;> simp [Size.add, Nat.add_assoc]

theorem zero_add_size (s : Size) : Size.size 0 + s = s := by
  show Size.add (Size.size 0) s = s
  cases s <;> simp [Size.add]

theorem sizeFold_eq : (ds : List Doc) → (acc : Size) →
    Doc.sizeFold acc ds = acc + (ds.map Doc.size).foldr (fun x y => x + y) (Size.size 0)
  | [], acc => by simp [Doc.sizeFold, add_size_zero]
  | d :: ds, acc => by
      simp only [Doc.sizeFold, List.map, List.foldr]
      rw [sizeFold_eq ds (acc + Doc.size d), size_add_assoc]

theorem delimitedList_snoc : (delim : Doc) → (xs : List Doc) → (x : Doc) →
    delimitedList delim (xs ++ [x]) =
      xs.map (fun y => Doc.join y (.opt (some delim))) ++ [Doc.join x (.opt none)]
  | delim, [], x => by simp [delimitedList]
  | delim, y :: xs, x => by
      show Doc.join y (.opt (if (xs ++ [x]).isEmpty then none else some delim)) ::
          delimitedList delim (xs ++ [x]) = _
      rw [delimitedList_snoc delim xs x]
      simp

/-! ### The claims -/

/-- Claim C1: rendering a `Group` with cached intrinsic size `sz` in an
environment with indent level `i`, indent unit width `t` and configured
maximum width `m` renders the wrapped content under break mode `true`
exactly when `sz + i*t` is strictly greater than `m` in the `Size` order
(and under `false` otherwise); this freshly computed mode replaces whatever
break mode the `Group` inherited (environments differing only in inherited
break mode render the `Group` identically), and a sibling rendered after the
`Group` still sees the environment the `Group` itself inherited. -/
theorem c1_group_break_mode (W : WriterModel ω ε) (sz : Size) (d : Doc)
    (ctx : Context) (w : ω) (m : Nat) (hm : ctx.maxLine = some m) :
    prettyWrite W (.group sz d) ctx w =
      prettyWrite W d
        { ctx with
          broken := Size.blt (.size m) (sz + Size.size (ctx.indentLevel * ctx.tabSize)) } w
    ∧ (∀ b' : Bool,
        prettyWrite W (.group sz d) { ctx with broken := b' } w =
          prettyWrite W (.group sz d) ctx w)
    ∧ (∀ (e : Doc) (w' : ω),
        prettyWrite W (.group sz d) ctx w = (w', none) →
          prettyWrite W (.join (.group sz d) e) ctx w = prettyWrite W e ctx w') := by
  refine ⟨?_, ?_, ?_⟩
  · rw [prettyWrite_group]
    simp [Size.exceeds, hm]
  · intro b'
    rw [prettyWrite_group, prettyWrite_group]
  · intro e w' h
    rw [prettyWrite_join, h]

/-- Witness for C1 at a concrete input: cached size 3, indent level 1, tab
size 4, maximum width 5; the adjusted size 3 + 4 = 7 exceeds 5, so the
content renders broken. -/
theorem c1_group_break_mode_witness :
    prettyWrite charWriter (.group (.size 3) (.text "abc")) ⟨some 5, 4, 1, false⟩ [] =
      prettyWrite charWriter (.text "abc") ⟨some 5, 4, 1, true⟩ [] :=
  (c1_group_break_mode charWriter (.size 3) (.text "abc") ⟨some 5, 4, 1, false⟩ [] 5 rfl).1

/-- Claim C2 is refuted: with an absent maximum width, a `Group` whose cached
intrinsic size is `MultiLine` renders its wrapped content in UNBROKEN mode
(`MultiLine` is not strictly greater than `MultiLine`, so `exceeds` is
`false`).  Here the group's content is an `OnlyBroken` conditional: the group
render at inherited mode `true` emits nothing, which matches the content
rendered unbroken and differs from the content rendered broken. -/
theorem c2_group_multiline_counterexample :
    output (.group .multiLine (.cond .onlyBroken (.text "!"))) ⟨none, 4, 0, true⟩ =
      output (.cond .onlyBroken (.text "!")) ⟨none, 4, 0, false⟩
    ∧ output (.group .multiLine (.cond .onlyBroken (.text "!"))) ⟨none, 4, 0, true⟩ ≠
      output (.cond .onlyBroken (.text "!")) ⟨none, 4, 0, true⟩ := by
  exact ⟨rfl, by decide⟩

/-- Claim C2 (amended): a `Group` whose cached intrinsic size is `MultiLine`
sets the break mode of its wrapped content to broken for every PRESENT
(finite) configured maximum width; with an absent (unlimited) maximum width
it instead sets the mode to unbroken, since `MultiLine` does not compare
strictly greater than the unlimited bound. -/
theorem c2_group_multiline (W : WriterModel ω ε) (d : Doc) (ctx : Context) (w : ω) :
    (∀ m : Nat, ctx.maxLine = some m →
      prettyWrite W (.group .multiLine d) ctx w =
        prettyWrite W d { ctx with broken := true } w)
    ∧ (ctx.maxLine = none →
      prettyWrite W (.group .multiLine d) ctx w =
        prettyWrite W d { ctx with broken := false } w) := by
  constructor
  · intro m hm
    rw [prettyWrite_group, multiLine_add, hm]
    rfl
  · intro hm
    rw [prettyWrite_group, multiLine_add, hm]
    rfl

/-- Witness for the amended C2 at concrete inputs: maximum width 100 forces
the broken mode, absent maximum width forces the unbroken mode. -/
theorem c2_group_multiline_witness :
    prettyWrite charWriter (.group .multiLine (.text "x")) ⟨some 100, 2, 0, false⟩ [] =
      prettyWrite charWriter (.text "x") ⟨some 100, 2, 0, true⟩ []
    ∧ prettyWrite charWriter (.group .multiLine (.text "x")) ⟨none, 2, 0, true⟩ [] =
      prettyWrite charWriter (.text "x") ⟨none, 2, 0, false⟩ [] :=
  ⟨(c2_group_multiline charWriter (.text "x") ⟨some 100, 2, 0, false⟩ []).1 100 rfl,
   (c2_group_multiline charWriter (.text "x") ⟨none, 2, 0, true⟩ []).2 rfl⟩

/-- Claim C3: `exceeds` on an absent maximum width is false for every `Size`
(the absent bound is compared as the unbounded marker, and unbounded is not
strictly greater than unbounded); consequently rendering a tree containing
no forced break with unlimited width emits no line break at any separator:
the render equals that of the tree with every separator replaced by a text
leaf of exactly its configured number of spaces. -/
theorem c3_unlimited_width (d : Doc) (t : Nat) (hf : noForcedBreak d = true) :
    (∀ s : Size, s.exceeds none = false)
    ∧ to_string d none t = to_string (sepToText d) none t := by
  refine ⟨exceeds_none, ?_⟩
  simp only [to_string, write]
  rw [shiftW, shiftW]
  simp only [exceeds_none]
  rw [outputP_sepToText d ⟨none, t, 0, false⟩ rfl rfl]

/-- Witness for C3 at a concrete forced-break-free tree. -/
theorem c3_unlimited_width_witness :
    noForcedBreak (.join (.text "a") (.join (.sep 1) (.text "b"))) = true
    ∧ to_string (.join (.text "a") (.join (.sep 1) (.text "b"))) none 4 =
      to_string (sepToText (.join (.text "a") (.join (.sep 1) (.text "b")))) none 4 :=
  ⟨by decide, (c3_unlimited_width (.join (.text "a") (.join (.sep 1) (.text "b"))) 4 (by decide)).2⟩

/-- Claim C4: the `Size` algebra.  Addition of two finite sizes sums the
counts; `MultiLine` is absorbing on either side; addition is associative;
scalar multiplication scales a finite size and fixes `MultiLine`; and the
derived strict order is total (trichotomous, irreflexive, transitive) with
`MultiLine` strictly above every finite value, below nothing, and the only
element not strictly below `MultiLine`. -/
theorem c4_size_algebra :
    (∀ a b : Nat, Size.size a + Size.size b = Size.size (a + b))
    ∧ (∀ s : Size, Size.multiLine + s = Size.multiLine)
    ∧ (∀ s : Size, s + Size.multiLine = Size.multiLine)
    ∧ (∀ a b c : Size, a + b + c = a + (b + c))
    ∧ (∀ n k : Nat, Size.size n * k = Size.size (n * k))
    ∧ (∀ k : Nat, Size.multiLine * k = Size.multiLine)
    ∧ (∀ a b : Size, a.blt b = true ∨ b.blt a = true ∨ a = b)
    ∧ (∀ a : Size, a.blt a = false)
    ∧ (∀ a b c : Size, a.blt b = true → b.blt c = true → a.blt c = true)
    ∧ (∀ n : Nat, (Size.size n).blt Size.multiLine = true)
    ∧ (∀ s : Size, Size.multiLine.blt s = false)
    ∧ (∀ s : Size, s ≠ Size.multiLine → s.blt Size.multiLine = true) := by
  refine ⟨fun a b => rfl, multiLine_add, add_multiLine, size_add_assoc,
    fun n k => rfl, fun k => rfl, ?_, ?_, ?_, fun n => rfl, fun s => by cases s <;> rfl, ?_⟩
  · intro a b
    cases a <;> cases b <;> simp [Size.blt] <;> omega
  · intro a
    cases a <;> simp [Size.blt]
  · intro a b c hab hbc
    cases a <;> cases b <;> cases c <;> simp [Size.blt] at hab hbc ⊢ <;> omega
  · intro s hs
    cases s with
    | size n => rfl
    | multiLine => exact absurd rfl hs

/-- Witness for C4: the transitivity and the below-MultiLine components
applied at concrete sizes. -/
theorem c4_size_algebra_witness :
    Size.blt (.size 1) (.size 3) = true ∧ Size.blt (.size 2) Size.multiLine = true :=
  ⟨c4_size_algebra.2.2.2.2.2.2.2.2.1 (.size 1) (.size 2) (.size 3) (by decide) (by decide),
   c4_size_algebra.2.2.2.2.2.2.2.2.2.2.2 (.size 2) (by decide)⟩

/-- Claim C5: `Join` and `Seq` report as intrinsic size the `Size`-algebra
sum of their children's sizes in order, and render their children strictly
in order, each child receiving exactly the break mode and indent level the
composite inherited (the first child's render does not alter the
environment the next child receives), with all output appended to the one
destination in tree order. -/
theorem c5_join_seq :
    (∀ a b : Doc, Doc.size (.join a b) = Doc.size a + Doc.size b)
    ∧ (∀ ds : List Doc,
        Doc.size (.seq ds) = (ds.map Doc.size).foldr (fun x y => x + y) (Size.size 0))
    ∧ (∀ (ω ε : Type) (W : WriterModel ω ε) (a b : Doc) (ctx : Context) (w : ω),
        prettyWrite W (.join a b) ctx w =
          match prettyWrite W a ctx w with
          | (w', none) => prettyWrite W b ctx w'
          | (w', some e) => (w', some e))
    ∧ (∀ (ω ε : Type) (W : WriterModel ω ε) (d : Doc) (ds : List Doc) (ctx : Context) (w : ω),
        prettyWrite W (.seq (d :: ds)) ctx w =
          match prettyWrite W d ctx w with
          | (w', none) => prettyWrite W (.seq ds) ctx w'
          | (w', some e) => (w', some e))
    ∧ (∀ (a b : Doc) (ctx : Context), output (.join a b) ctx = output a ctx ++ output b ctx)
    ∧ (∀ (d : Doc) (ds : List Doc) (ctx : Context),
        output (.seq (d :: ds)) ctx = output d ctx ++ output (.seq ds) ctx) := by
  refine ⟨fun a b => rfl, ?_, fun ω ε W a b ctx w => rfl, fun ω ε W d ds ctx w => rfl, ?_, ?_⟩
  · intro ds
    show Doc.sizeFold (.size 0) ds = _
    rw [sizeFold_eq, zero_add_size]
  · intro a b ctx
    simp [output_eq, outputP]
  · intro d ds ctx
    simp [output_eq, outputP, outputPList]

/-- Claim C6: a separator of configured width `n` has intrinsic size `n`;
rendered in broken mode it emits exactly one line break followed by exactly
`tabSize * indentLevel` literal spaces; rendered unbroken it emits exactly
`n` literal spaces and no line break. -/
theorem c6_sep (n : Nat) (ctx : Context) :
    Doc.size (.sep n) = Size.size n
    ∧ (ctx.broken = true →
        output (.sep n) ctx = '\n' :: List.replicate (ctx.tabSize * ctx.indentLevel) ' ')
    ∧ (ctx.broken = false →
        output (.sep n) ctx = List.replicate n ' ' ∧ '\n' ∉ output (.sep n) ctx) := by
  refine ⟨rfl, ?_, ?_⟩
  · intro hb
    simp [output_eq, outputP, hb]
  · intro hb
    constructor
    · simp [output_eq, outputP, hb]
    · simp [output_eq, outputP, hb, List.mem_replicate]

/-- Witness for C6 at tab size 4 and indent level 2, in both modes. -/
theorem c6_sep_witness :
    output (.sep 3) ⟨some 10, 4, 2, true⟩ = '\n' :: List.replicate 8 ' '
    ∧ output (.sep 3) ⟨some 10, 4, 2, false⟩ = List.replicate 3 ' ' :=
  ⟨(c6_sep 3 ⟨some 10, 4, 2, true⟩).2.1 rfl,
   ((c6_sep 3 ⟨some 10, 4, 2, false⟩).2.2 rfl).1⟩

/-- Claim C7: an `Indent` node's intrinsic size is its content's size, and it
renders its content at an indent level exactly one greater than the
inherited level, while a sibling rendered before or after the `Indent` node
sees the original, unincremented level. -/
theorem c7_indent :
    (∀ d : Doc, Doc.size (.indent d) = Doc.size d)
    ∧ (∀ (ω ε : Type) (W : WriterModel ω ε) (d : Doc) (ctx : Context) (w : ω),
        prettyWrite W (.indent d) ctx w =
          prettyWrite W d { ctx with indentLevel := ctx.indentLevel + 1 } w)
    ∧ (∀ (ω ε : Type) (W : WriterModel ω ε) (d e : Doc) (ctx : Context) (w w' : ω),
        prettyWrite W (.indent d) ctx w = (w', none) →
          prettyWrite W (.join (.indent d) e) ctx w = prettyWrite W e ctx w')
    ∧ (∀ (ω ε : Type) (W : WriterModel ω ε) (d e : Doc) (ctx : Context) (w w' : ω),
        prettyWrite W e ctx w = (w', none) →
          prettyWrite W (.join e (.indent d)) ctx w =
            prettyWrite W d { ctx with indentLevel := ctx.indentLevel + 1 } w') := by
  refine ⟨fun d => rfl, fun ω ε W d ctx w => rfl, ?_, ?_⟩
  · intro ω ε W d e ctx w w' h
    rw [prettyWrite_join, h]
  · intro ω ε W d e ctx w w' h
    rw [prettyWrite_join, h]
    rfl

/-- Witness for C7: after a text sibling renders, the indented content still
renders at the sibling's level plus one. -/
theorem c7_indent_witness :
    prettyWrite charWriter (.join (.text "a") (.indent (.sep 0))) ⟨some 9, 4, 1, true⟩ [] =
      prettyWrite charWriter (.sep 0) ⟨some 9, 4, 2, true⟩ ['a'] :=
  c7_indent.2.2.2 (List Char) Empty charWriter (.sep 0) (.text "a") ⟨some 9, 4, 1, true⟩ [] ['a'] rfl

/-- Claim C8: for every non-empty item list (written `xs ++ [x]`), the
`delimited` builder joins every item except the last with `Some` of one copy
of the delimiter and the last with `None`; rendering `Some delim` after an
item emits the item then exactly one copy of the delimiter, and rendering
the final `None` emits the item's output and nothing more. -/
theorem c8_delimited :
    (∀ (delim : Doc) (xs : List Doc) (x : Doc),
        delimited delim (xs ++ [x]) =
          .seq (xs.map (fun y => Doc.join y (.opt (some delim))) ++ [Doc.join x (.opt none)]))
    ∧ (∀ (x : Doc) (ctx : Context), output (.join x (.opt none)) ctx = output x ctx)
    ∧ (∀ (y delim : Doc) (ctx : Context),
        output (.join y (.opt (some delim))) ctx = output y ctx ++ output delim ctx) := by
  refine ⟨?_, ?_, ?_⟩
  · intro delim xs x
    rw [delimited, delimitedList_snoc]
  · intro x ctx
    simp [output_eq, outputP]
  · intro y delim ctx
    simp [output_eq, outputP]

/-- Claim C9 is refuted: `block` around a forced break, rendered in an
unbroken environment, indents the break's continuation line, so its output
is not byte-for-byte the output of the content alone. -/
theorem c9_block_counterexample :
    output (block .newline) ⟨some 40, 4, 0, false⟩ ≠
      output Doc.newline ⟨some 40, 4, 0, false⟩ := by
  decide

/-- Claim C9 (amended): `block x` is structurally
`Indent(Sep(0).join(x)).join(Sep(0))`, and rendered in an unbroken
environment its output is byte-for-byte the output of `Indent(x)` in that
environment (the surrounding `Sep(0)`s contribute nothing); it equals the
output of `x` alone whenever `x` contains no forced break and no group —
the two node kinds whose unbroken rendering can read the incremented indent
level. -/
theorem c9_block (x : Doc) (ctx : Context) (hb : ctx.broken = false) :
    block x = Doc.join (.indent (.join (.sep 0) x)) (.sep 0)
    ∧ output (block x) ctx = output (.indent x) ctx
    ∧ (indentFree x = true → output (block x) ctx = output x ctx) := by
  have h2 : output (block x) ctx = output (.indent x) ctx := by
    simp [block, output_eq, outputP, hb]
  refine ⟨rfl, h2, ?_⟩
  intro hf
  rw [h2, output_eq, output_eq]
  show outputP x { ctx with indentLevel := ctx.indentLevel + 1 } = outputP x ctx
  exact outputP_indentIrrel x { ctx with indentLevel := ctx.indentLevel + 1 } ctx rfl rfl hb hb hf

/-- Witness for the amended C9: a group-free, break-free body renders through
`block` unchanged when unbroken. -/
theorem c9_block_witness :
    output (block (.join (.text "hi") (.sep 1))) ⟨some 40, 4, 3, false⟩ =
      output (.join (.text "hi") (.sep 1)) ⟨some 40, 4, 3, false⟩ :=
  (c9_block (.join (.text "hi") (.sep 1)) ⟨some 40, 4, 3, false⟩ rfl).2.2 (by decide)

/-- Claim C10: in `Join`, in `Seq`, and in the top-level `write` entry, a
destination-write failure from a child is returned to the caller exactly as
produced — same error value and same writer state, so nothing further is
written — and the following sibling (or the rest of the traversal) is not
rendered. -/
theorem c10_error_propagation :
    (∀ (ω ε : Type) (W : WriterModel ω ε) (a b : Doc) (ctx : Context) (w w' : ω) (e : ε),
        prettyWrite W a ctx w = (w', some e) →
          prettyWrite W (.join a b) ctx w = (w', some e))
    ∧ (∀ (ω ε : Type) (W : WriterModel ω ε) (d : Doc) (ds : List Doc) (ctx : Context)
        (w w' : ω) (e : ε),
        prettyWrite W d ctx w = (w', some e) →
          prettyWrite W (.seq (d :: ds)) ctx w = (w', some e))
    ∧ (∀ (ω ε : Type) (W : WriterModel ω ε) (content : Doc) (m : Option Nat) (t : Nat)
        (w w' : ω) (e : ε),
        prettyWrite W content ⟨m, t, 0, (Doc.size content).exceeds m⟩ w = (w', some e) →
          write W w content m t = (w', some e)) := by
  refine ⟨?_, ?_, ?_⟩
  · intro ω ε W a b ctx w w' e h
    rw [prettyWrite_join, h]
  · intro ω ε W d ds ctx w w' e h
    rw [prettyWrite_seq_cons, h]
  · intro ω ε W content m t w w' e h
    exact h

/-- Witness for C10 with a writer whose every write fails: the failure of the
first child is the result of the whole `Join` and of the `write` entry. -/
theorem c10_error_propagation_witness :
    prettyWrite failWriter (.join (.text "a") (.text "b")) ⟨some 10, 4, 0, false⟩ () =
      ((), some ())
    ∧ write failWriter () (.text "a") (some 10) 4 = ((), some ()) :=
  ⟨c10_error_propagation.1 Unit Unit failWriter (.text "a") (.text "b")
      ⟨some 10, 4, 0, false⟩ () () () rfl,
   c10_error_propagation.2.2 Unit Unit failWriter (.text "a") (some 10) 4 () () () rfl⟩

/-! ### Validation of the embedding against the crate's own doctests -/

/-- Doctest of `Sep` (src/lib.rs lines 319-359): a width-10 bound breaks a
`hello`/`world!` pair at either a width-0 or width-1 separator, while an
unlimited bound renders the separators as their configured spaces. -/
theorem doctest_sep :
    to_string (.join (.join (.text "hello") (.sep 0)) (.text "world!")) (some 10) 4 =
      "hello\nworld!"
    ∧ to_string (.join (.join (.text "hello") (.sep 1)) (.text "world!")) (some 10) 4 =
      "hello\nworld!"
    ∧ to_string (.join (.join (.text "hello") (.sep 1)) (.text "world!")) none 4 =
      "hello world!"
    ∧ to_string (.join (.join (.text "hello") (.sep 0)) (.text "world!")) none 4 =
      "helloworld!" := by
  refine ⟨by decide, by decide, by decide, by decide⟩

/-- Doctest of `Group` (src/lib.rs lines 241-284): ungrouped content breaks
at every separator once the whole exceeds the bound, while grouping the two
halves keeps each on its own line. -/
theorem doctest_group :
    to_string
      (.join (.join (.join (.join (.join (.text "hello") (.sep 0)) (.text ","))
        (.sep 1)) (.join (.text "world") (.sep 0))) (.text "!"))
      (some 10) 4 = "hello\n,\nworld\n!"
    ∧ to_string
      (.join (.join (Group.new (.join (.join (.text "hello") (.sep 0)) (.text ",")))
        (.sep 1)) (Group.new (.join (.join (.text "world") (.sep 0)) (.text "!"))))
      (some 10) 4 = "hello,\nworld!" := by
  refine ⟨by decide, by decide⟩

/-- Doctest of `block` (src/lib.rs lines 833-861): broken it indents its
content between the delimiters, unbroken it is plain concatenation. -/
theorem doctest_block :
    to_string
      (.join (.join (.text "(") (block (.join (.join (.text "hello") (.sep 1)) (.text "world"))))
        (.text ")"))
      (some 10) 2 = "(\n  hello\n  world\n)"
    ∧ to_string
      (.join (.join (.text "(") (block (.join (.join (.text "hello") (.sep 1)) (.text "world"))))
        (.text ")"))
      none 2 = "(hello world)" := by
  refine ⟨by decide, by decide⟩

/-- Doctest of `delimited` (src/lib.rs lines 793-801). -/
theorem doctest_delimited :
    to_string (delimited (.join (.text ",") (.sep 1)) [.text "lorem", .text "ipsum", .text "dolor"])
      none 4 = "lorem, ipsum, dolor" := by
  decide

/-- The crate's lead example (src/lib.rs lines 15-71): a nested list rendered
at width 40 with tab size 4 keeps `[1, 2, 3]` on one line and breaks the
larger nested list with indentation and trailing commas. -/
theorem doctest_nested_lists :
    to_string
      (Group.new (.join (.join (.text "[")
        (block (.join
          (delimited (.join (.text ",") (.sep 1)) [.text "1", .text "2", .text "3"])
          (.cond .onlyBroken (.text ",")))))
        (.text "]")))
      (some 40) 4 = "[1, 2, 3]"
    ∧ to_string
      (Group.new (.join (.join (.text "[")
        (block (.join
          (delimited (.join (.text ",") (.sep 1))
            [Group.new (.join (.join (.text "[")
              (block (.join
                (delimited (.join (.text ",") (.sep 1))
                  [.text "1", .text "2", .text "3", .text "4", .text "5"])
                (.cond .onlyBroken (.text ",")))))
              (.text "]")),
             Group.new (.join (.join (.text "[")
              (block (.join
                (delimited (.join (.text ",") (.sep 1))
                  [.text "6", .text "7", .text "8", .text "9", .text "10"])
                (.cond .onlyBroken (.text ",")))))
              (.text "]")),
             Group.new (.join (.join (.text "[")
              (block (.join
                (delimited (.join (.text ",") (.sep 1))
                  [Group.new (.join (.join (.text "[")
                    (block (.join
                      (delimited (.join (.text ",") (.sep 1))
                        [.text "11", .text "12", .text "13"])
                      (.cond .onlyBroken (.text ",")))))
                    (.text "]")),
                   Group.new (.join (.join (.text "[")
                    (block (.join
                      (delimited (.join (.text ",") (.sep 1))
                        [.text "14", .text "15", .text "16"])
                      (.cond .onlyBroken (.text ",")))))
                    (.text "]"))])
                (.cond .onlyBroken (.text ",")))))
              (.text "]"))])
          (.cond .onlyBroken (.text ",")))))
        (.text "]")))
      (some 40) 4 =
    "[\n    [1, 2, 3, 4, 5],\n    [6, 7, 8, 9, 10],\n    [[11, 12, 13], [14, 15, 16]],\n]" := by
  refine ⟨by decide, by decide⟩

end PrettyTrait
